import Mathlib

/-!
Formal model of the RF-signal heatmap script (src/5G.py), embedded over exact
rational arithmetic.  The script's computational core is three pieces:
the signal-strength model `calculate_signal_strength`, the gradient color
model `calculate_gradient_color`, and the pass orchestrator `generate_heatmap`
(tower scan, ring-sampled point generation, statistics).  Python float
division, which raises ZeroDivisionError on a zero denominator, is modelled by
an Option-valued division; any other raised exception (min of an empty list,
division by a zero length) likewise makes the surrounding computation return
none.  Randomness (random.uniform calls) is modelled by an oracle stream of
per-sample draws: each generated sample consumes one `Draw` record holding the
cosine and sine of its random angle, its distance jitter and its z jitter.
-/

/-- Python float division: a / b, raising (modelled as none) when b = 0. -/
def pydiv (a b : ℚ) : Option ℚ :=
  if b = 0 then none else some (a / b)

/-- calculate_signal_strength (src/5G.py lines 159-177): clamp the distance to
[min_distance, max_distance], linearly interpolate 100 * (max - d) / (max - min)
— a fallible division — and clamp the result to [0, 100]. -/
def calculate_signal_strength (distance max_distance min_distance : ℚ) : Option ℚ :=
  let distance := max min_distance (min max_distance distance)
  match pydiv (100 * (max_distance - distance)) (max_distance - min_distance) with
  | none => none
  | some signal_strength => some (max 0 (min 100 signal_strength))

/-- The strength > 50 branch of calculate_gradient_color: yellow to green. -/
def gradient_strong (signal_strength : ℚ) : ℚ × ℚ × ℚ :=
  let normalized := (signal_strength - 50) / 50
  (1 - normalized, 1, 0)

/-- The strength <= 50 branch of calculate_gradient_color: red to yellow. -/
def gradient_weak (signal_strength : ℚ) : ℚ × ℚ × ℚ :=
  let normalized := signal_strength / 50
  (1, normalized, 0)

/-- calculate_gradient_color (src/5G.py lines 119-156): clamp the strength to
[0, 100], then pick the strong (yellow-green) branch when strength > 50 and the
weak (red-yellow) branch otherwise. -/
def calculate_gradient_color (signal_strength : ℚ) : ℚ × ℚ × ℚ :=
  let signal_strength := max 0 (min 100 signal_strength)
  if 50 < signal_strength then gradient_strong signal_strength
  else gradient_weak signal_strength

/-- The statistics-stage inverse color mapping (src/5G.py lines 316-322):
recover a signal strength from an emitted (r, g, b) color. -/
def recover_signal (color : ℚ × ℚ × ℚ) : ℚ :=
  let r := color.1
  let g := color.2.1
  if g = 1 ∧ r < 1 then 50 + (1 - r) * 50 else g * 50

/-- In a non-degenerate configuration the division inside
calculate_signal_strength succeeds and the result is the clamped linear
interpolation evaluated at the clamped distance. -/
theorem calculate_signal_strength_eq (distance max_distance min_distance : ℚ)
    (h : max_distance ≠ min_distance) :
    calculate_signal_strength distance max_distance min_distance =
      some (max 0 (min 100 (100 * (max_distance - max min_distance (min max_distance distance))
        / (max_distance - min_distance)))) := by
  have hden : max_distance - min_distance ≠ 0 := sub_ne_zero_of_ne h
  simp [calculate_signal_strength, pydiv, hden]

/-- In every degenerate configuration maxRange = minRange the strength
computation faults, for every distance: there is no guard at all. -/
theorem calculate_signal_strength_degenerate (distance m : ℚ) :
    calculate_signal_strength distance m m = none := by
  simp [calculate_signal_strength, pydiv]

/-- Claim C1, behaviour of the code at a failing input: with
maxRange = minRange = 5 and distance 10, the strength computation divides zero
by zero, i.e. the script raises ZeroDivisionError instead of returning the
defined fallback value demanded by the spec. -/
theorem claim1_degenerate_config_faults : calculate_signal_strength 10 5 5 =
    none :=
  calculate_signal_strength_degenerate 10 5

/-- Claim C2: for every strength s in [0, 100], the statistics-stage inverse
mapping recovers s exactly from calculate_gradient_color s (exact rational
arithmetic). -/
theorem claim2_roundtrip_inverse_color (s : ℚ) (h0 : 0 ≤ s) (h1 : s ≤ 100) :
    recover_signal (calculate_gradient_color s) = s := by
  have hclamp : max 0 (min 100 s) = s := by
    rw [min_eq_right h1, max_eq_right h0]
  by_cases h : 50 < s
  · have hbr : calculate_gradient_color s = gradient_strong s := by
      simp only [calculate_gradient_color, hclamp, if_pos h]
    rw [hbr]
    simp only [gradient_strong, recover_signal]
    have hr : 1 - (s - 50) / 50 < 1 := by
      have : 0 < (s - 50) / 50 := div_pos (by linarith) (by norm_num)
      linarith
    rw [if_pos ⟨trivial, hr⟩]
    field_simp
  · have hbr : calculate_gradient_color s = gradient_weak s := by
      simp only [calculate_gradient_color, hclamp, if_neg h]
    rw [hbr]
    simp only [gradient_weak, recover_signal]
    rw [if_neg (by rintro ⟨-, h2⟩; exact absurd h2 (lt_irrefl 1))]
    field_simp

/-- Claim C2 witness: the round trip at the concrete strength 70. -/
theorem claim2_witness :
    recover_signal (calculate_gradient_color 70) = 70 :=
  claim2_roundtrip_inverse_color 70 (by norm_num) (by norm_num)

/-- Claim C3: the three anchor strengths map exactly to the anchor colors, and
the two branches of the piecewise gradient agree at strength 50 (both give
yellow), so the gradient is continuous there. -/
theorem claim3_anchor_colors :
    calculate_gradient_color 0 = (1, 0, 0) ∧
    calculate_gradient_color 50 = (1, 1, 0) ∧
    calculate_gradient_color 100 = (0, 1, 0) ∧
    gradient_strong 50 = (1, 1, 0) ∧
    gradient_weak 50 = (1, 1, 0) := by
  refine ⟨?_, ?_, ?_, ?_, ?_⟩ <;>
    norm_num [calculate_gradient_color, gradient_strong, gradient_weak]

/-- Claim C4: in every valid configuration maxRange > minRange, the strength is
100 at distance minRange, 0 at distance maxRange, and lies in [0, 100] for
every distance. -/
theorem claim4_strength_endpoints_and_range (max_distance min_distance : ℚ)
    (h : min_distance < max_distance) :
    calculate_signal_strength min_distance max_distance min_distance = some 100 ∧
    calculate_signal_strength max_distance max_distance min_distance = some 0 ∧
    ∀ distance : ℚ, ∃ s,
      calculate_signal_strength distance max_distance min_distance = some s ∧
      0 ≤ s ∧ s ≤ 100 := by
  have hne : max_distance ≠ min_distance := (ne_of_lt h).symm
  have hden : max_distance - min_distance ≠ 0 := sub_ne_zero_of_ne hne
  refine ⟨?_, ?_, ?_⟩
  · rw [calculate_signal_strength_eq _ _ _ hne]
    rw [min_eq_right h.le, max_self]
    rw [mul_div_assoc, div_self hden]
    norm_num
  · rw [calculate_signal_strength_eq _ _ _ hne]
    rw [min_self, max_eq_right h.le]
    norm_num
  · intro distance
    refine ⟨_, calculate_signal_strength_eq distance _ _ hne, le_max_left 0 _, ?_⟩
    exact max_le (by norm_num) (min_le_left 100 _)

/-- Claim C4 witness: the endpoint and range facts at maxRange 150,
minRange 5, checked at distance 80. -/
theorem claim4_witness :
    calculate_signal_strength 5 150 5 = some 100 ∧
    calculate_signal_strength 150 150 5 = some 0 ∧
    ∃ s, calculate_signal_strength 80 150 5 = some s ∧ 0 ≤ s ∧ s ≤ 100 := by
  obtain ⟨h1, h2, h3⟩ := claim4_strength_endpoints_and_range 150 5 (by norm_num)
  exact ⟨h1, h2, h3 80⟩

/-- Claim C5: for a fixed valid configuration, the signal strength is
monotonically non-increasing in the distance, over the whole domain. -/
theorem claim5_strength_monotone (max_distance min_distance d1 d2 : ℚ)
    (h : min_distance < max_distance) (hd : d1 ≤ d2) :
    ∃ s1 s2,
      calculate_signal_strength d1 max_distance min_distance = some s1 ∧
      calculate_signal_strength d2 max_distance min_distance = some s2 ∧
      s2 ≤ s1 := by
  have hne : max_distance ≠ min_distance := (ne_of_lt h).symm
  refine ⟨_, _, calculate_signal_strength_eq d1 _ _ hne,
    calculate_signal_strength_eq d2 _ _ hne, ?_⟩
  have hc : max min_distance (min max_distance d1) ≤ max min_distance (min max_distance d2) := by
    gcongr
  gcongr
  all_goals linarith

/-- Claim C5 witness: monotonicity at the concrete pair of distances 30 and 60
in the default configuration. -/
theorem claim5_witness :
    ∃ s1 s2, calculate_signal_strength 30 150 5 = some s1 ∧
      calculate_signal_strength 60 150 5 = some s2 ∧ s2 ≤ s1 :=
  claim5_strength_monotone 150 5 30 60 (by norm_num) (by norm_num)

/-- The heatmap configuration read once per generation pass (module-level
globals MAX_SIGNAL_RANGE, MIN_SIGNAL_RANGE, POINTS_PER_TOWER, POINT_SIZE). -/
structure HeatmapParams where
  maxRange : ℚ
  minRange : ℚ
  pointsPerTower : ℕ
  pointSize : ℚ

/-- The random draws consumed by one generated sample: the cosine and sine of
the uniformly random angle, the distance jitter (uniform in [-5, 5]) and the
z jitter (uniform in [-5, 5] or [-10, 10] depending on the strength branch). -/
structure Draw where
  c : ℚ
  s : ℚ
  jd : ℚ
  jz : ℚ

/-- Visibility state written to the display prim. -/
inductive Visibility where
  | invisible : Visibility
  | inherited : Visibility

/-- The statistics block printed at the end of a pass (src/5G.py
lines 312-334). -/
structure Stats where
  min_signal : ℚ
  max_signal : ℚ
  avg_signal : ℚ
  red_count : ℕ
  yellow_count : ℕ
  green_count : ℕ

/-- Everything one pass of generate_heatmap writes: the visibility flag, the
point/color arrays, the widths array (none when the pass never sets it) and
the reported statistics (none when the pass never reaches them). -/
structure PassResult where
  visibility : Visibility
  points : List (ℚ × ℚ × ℚ)
  colors : List (ℚ × ℚ × ℚ)
  widths : Option (List ℚ)
  stats : Option Stats

/-- A generated sample: its 3D position and its color. -/
abbrev Sample := (ℚ × ℚ × ℚ) × (ℚ × ℚ × ℚ)

/-- num_rings, fixed at 20 in the source. -/
def numRings : ℕ := 20

/-- Base distance of a ring (src/5G.py lines 262-264): ring_progress is
ring_idx / (num_rings - 1) when num_rings > 1, else 0. -/
def ring_dist (p : HeatmapParams) (ring_idx : ℕ) : ℚ :=
  let ring_progress : ℚ :=
    if 1 < numRings then (ring_idx : ℚ) / ((numRings : ℚ) - 1) else 0
  p.minRange + (p.maxRange - p.minRange) * ring_progress

/-- One sample of the inner loop (src/5G.py lines 267-299): jitter the ring
distance, clamp it back to [minRange, maxRange], place the point at
tower.xy + distance * (cos angle, sin angle), compute strength and color at
the clamped distance, and choose the elevation band from the strength. -/
def sample_point (p : HeatmapParams) (origin : ℚ × ℚ × ℚ) (dist : ℚ)
    (dr : Draw) : Option Sample :=
  let base_height := origin.2.2 - 5
  let actual_dist := max p.minRange (min p.maxRange (dist + dr.jd))
  let target_x := origin.1 + actual_dist * dr.c
  let target_y := origin.2.1 + actual_dist * dr.s
  match calculate_signal_strength actual_dist p.maxRange p.minRange with
  | none => none
  | some signal_strength =>
    let color := calculate_gradient_color signal_strength
    let z_offset := if 50 < signal_strength then -25 + dr.jz else -10 + dr.jz
    some ((target_x, target_y, base_height + z_offset), color)

/-- The per-ring loop: n samples at ring distance dist, consuming the draws
starting at index start. -/
def ring_samples (p : HeatmapParams) (origin : ℚ × ℚ × ℚ) (dist : ℚ)
    (draws : ℕ → Draw) : ℕ → ℕ → Option (List Sample)
  | _, 0 => some []
  | start, n + 1 =>
    match sample_point p origin dist (draws start),
        ring_samples p origin dist draws (start + 1) n with
    | some sc, some rest => some (sc :: rest)
    | _, _ => none

/-- The per-tower ring loop over a list of ring indices, points_per_ring
samples each. -/
def rings_samples (p : HeatmapParams) (origin : ℚ × ℚ × ℚ) (draws : ℕ → Draw)
    (ppr : ℕ) : List ℕ → ℕ → Option (List Sample)
  | [], _ => some []
  | i :: rest, start =>
    match ring_samples p origin (ring_dist p i) draws start ppr,
        rings_samples p origin draws ppr rest (start + ppr) with
    | some s1, some s2 => some (s1 ++ s2)
    | _, _ => none

/-- All samples of one tower (src/5G.py lines 251-299): 20 rings of
pointsPerTower // 20 samples each. -/
def tower_samples (p : HeatmapParams) (origin : ℚ × ℚ × ℚ) (draws : ℕ → Draw)
    (start : ℕ) : Option (List Sample) :=
  rings_samples p origin draws (p.pointsPerTower / numRings)
    (List.range numRings) start

/-- The per-tower loop: concatenate each tower's samples in order, threading
the draw index. -/
def towers_samples (p : HeatmapParams) (draws : ℕ → Draw) :
    List (ℚ × ℚ × ℚ) → ℕ → Option (List Sample)
  | [], _ => some []
  | t :: rest, start =>
    match tower_samples p t draws start,
        towers_samples p draws rest
          (start + numRings * (p.pointsPerTower / numRings)) with
    | some s1, some s2 => some (s1 ++ s2)
    | _, _ => none

/-- All samples of a pass, in emission order. -/
def heatmap_samples (p : HeatmapParams) (towers : List (ℚ × ℚ × ℚ))
    (draws : ℕ → Draw) : Option (List Sample) :=
  towers_samples p draws towers 0

/-- The statistics block (src/5G.py lines 312-334): recover a strength from
every emitted color, take min, max and mean — Python's min and max raise on an
empty list, modelled by none — and count the three color bands. -/
def stats_of (final_colors : List (ℚ × ℚ × ℚ)) : Option Stats :=
  let all_signals := final_colors.map recover_signal
  match all_signals with
  | [] => none
  | s0 :: rest =>
    some ⟨rest.foldl min s0, rest.foldl max s0,
      all_signals.sum / (all_signals.length : ℚ),
      all_signals.countP (fun s => decide (s < 33)),
      all_signals.countP (fun s => decide (33 ≤ s ∧ s < 66)),
      all_signals.countP (fun s => decide (66 ≤ s))⟩

/-- One pass of generate_heatmap (src/5G.py lines 180-354), given the scanned
tower positions (already raised by +5) and the draw oracle.  With no towers the
pass hides the visualizer and writes empty arrays; otherwise it generates the
samples, writes points, colors and a constant widths array, and computes the
statistics.  A raised exception anywhere (degenerate-range division, empty-list
min in the statistics) aborts the pass: none. -/
def generate_heatmap (p : HeatmapParams) (towers : List (ℚ × ℚ × ℚ))
    (draws : ℕ → Draw) : Option PassResult :=
  if towers = [] then
    some ⟨Visibility.invisible, [], [], none, none⟩
  else
    match heatmap_samples p towers draws with
    | none => none
    | some samples =>
      let final_points := samples.map Prod.fst
      let final_colors := samples.map Prod.snd
      match stats_of final_colors with
      | none => none
      | some st =>
        some ⟨Visibility.inherited, final_points, final_colors,
          some (List.replicate final_points.length p.pointSize), some st⟩

/-- Claim C6: with zero visible towers the pass hides the display object,
writes empty point and color arrays, and returns normally. -/
theorem claim6_zero_towers_normal (p : HeatmapParams) (draws : ℕ → Draw) :
    generate_heatmap p [] draws =
      some ⟨Visibility.invisible, [], [], none, none⟩ := by
  simp [generate_heatmap]

/-- In a non-degenerate configuration every sample computation succeeds. -/
theorem sample_point_eq_some (p : HeatmapParams) (origin : ℚ × ℚ × ℚ)
    (dist : ℚ) (dr : Draw) (h : p.maxRange ≠ p.minRange) :
    ∃ sc, sample_point p origin dist dr = some sc := by
  simp only [sample_point]
  rw [calculate_signal_strength_eq _ _ _ h]
  exact ⟨_, rfl⟩

/-- In a non-degenerate configuration a ring of n samples succeeds and has
exactly n samples. -/
theorem ring_samples_length (p : HeatmapParams) (origin : ℚ × ℚ × ℚ)
    (dist : ℚ) (draws : ℕ → Draw) (h : p.maxRange ≠ p.minRange) :
    ∀ n start, ∃ l, ring_samples p origin dist draws start n = some l ∧
      l.length = n := by
  intro n
  induction n with
  | zero => intro start; exact ⟨[], rfl, rfl⟩
  | succ n ih =>
    intro start
    obtain ⟨sc, hsc⟩ := sample_point_eq_some p origin dist (draws start) h
    obtain ⟨l, hl, hlen⟩ := ih (start + 1)
    refine ⟨sc :: l, ?_, by simp [hlen]⟩
    simp [ring_samples, hsc, hl]

/-- In a non-degenerate configuration the ring loop over a list of ring
indices succeeds and emits ppr samples per ring. -/
theorem rings_samples_length (p : HeatmapParams) (origin : ℚ × ℚ × ℚ)
    (draws : ℕ → Draw) (ppr : ℕ) (h : p.maxRange ≠ p.minRange) :
    ∀ L : List ℕ, ∀ start, ∃ l,
      rings_samples p origin draws ppr L start = some l ∧
      l.length = L.length * ppr := by
  intro L
  induction L with
  | nil => intro start; exact ⟨[], rfl, by simp⟩
  | cons i rest ih =>
    intro start
    obtain ⟨l1, hl1, hlen1⟩ :=
      ring_samples_length p origin (ring_dist p i) draws h ppr start
    obtain ⟨l2, hl2, hlen2⟩ := ih (start + ppr)
    refine ⟨l1 ++ l2, ?_, ?_⟩
    · simp [rings_samples, hl1, hl2]
    · simp [hlen1, hlen2]
      ring

/-- In a non-degenerate configuration the tower loop succeeds and emits
numRings * (pointsPerTower / numRings) samples per tower. -/
theorem towers_samples_length (p : HeatmapParams) (draws : ℕ → Draw)
    (h : p.maxRange ≠ p.minRange) :
    ∀ ts : List (ℚ × ℚ × ℚ), ∀ start, ∃ l,
      towers_samples p draws ts start = some l ∧
      l.length = ts.length * (numRings * (p.pointsPerTower / numRings)) := by
  intro ts
  induction ts with
  | nil => intro start; exact ⟨[], rfl, by simp⟩
  | cons t rest ih =>
    intro start
    obtain ⟨l1, hl1, hlen1⟩ := rings_samples_length p t draws
      (p.pointsPerTower / numRings) h (List.range numRings) start
    obtain ⟨l2, hl2, hlen2⟩ := ih (start + numRings * (p.pointsPerTower / numRings))
    refine ⟨l1 ++ l2, ?_, ?_⟩
    · simp only [towers_samples, tower_samples]
      rw [hl1, hl2]
    · simp [hlen1, hlen2]
      ring

/-- Claim C7: in a non-degenerate configuration every pass emits exactly
towerCount * (pointsPerTower - pointsPerTower mod 20) samples: each tower
contributes 20 * (pointsPerTower / 20) points and the remainder is dropped. -/
theorem claim7_point_count (p : HeatmapParams) (towers : List (ℚ × ℚ × ℚ))
    (draws : ℕ → Draw) (h : p.maxRange ≠ p.minRange) :
    ∃ l, heatmap_samples p towers draws = some l ∧
      l.length = towers.length * (p.pointsPerTower - p.pointsPerTower % 20) := by
  obtain ⟨l, hl, hlen⟩ := towers_samples_length p draws h towers 0
  refine ⟨l, hl, ?_⟩
  rw [hlen]
  congr 1
  simp only [numRings]
  omega

/-- Claim C7 witness: one tower, 25 points per tower, default ranges — the
pass emits 1 * (25 - 25 mod 20) = 20 samples. -/
theorem claim7_witness :
    ∃ l, heatmap_samples ⟨150, 5, 25, 4⟩ [(0, 0, 5)]
        (fun _ => ⟨1, 0, 0, 0⟩) = some l ∧
      l.length = [((0 : ℚ), (0 : ℚ), (5 : ℚ))].length * (25 - 25 % 20) :=
  claim7_point_count ⟨150, 5, 25, 4⟩ [(0, 0, 5)] (fun _ => ⟨1, 0, 0, 0⟩)
    (by norm_num)

/-- Planar bound for one emitted sample: since the jittered distance is
clamped to [minRange, maxRange] before the position is computed, the squared
planar distance of the sample from its tower is the squared clamped distance,
hence between minRange^2 and maxRange^2 for any angle (unit direction) and any
jitter value. -/
theorem sample_point_planar (p : HeatmapParams) (origin : ℚ × ℚ × ℚ)
    (dist : ℚ) (dr : Draw) (sc : Sample) (h0 : 0 ≤ p.minRange)
    (h1 : p.minRange ≤ p.maxRange) (hu : dr.c ^ 2 + dr.s ^ 2 = 1)
    (hsc : sample_point p origin dist dr = some sc) :
    p.minRange ^ 2 ≤ (sc.1.1 - origin.1) ^ 2 + (sc.1.2.1 - origin.2.1) ^ 2 ∧
      (sc.1.1 - origin.1) ^ 2 + (sc.1.2.1 - origin.2.1) ^ 2 ≤ p.maxRange ^ 2 := by
  simp only [sample_point] at hsc
  cases hstr : calculate_signal_strength
      (max p.minRange (min p.maxRange (dist + dr.jd))) p.maxRange p.minRange with
  | none => rw [hstr] at hsc; cases hsc
  | some str =>
    rw [hstr] at hsc
    injection hsc with hsc
    subst hsc
    have hlo : p.minRange ≤ max p.minRange (min p.maxRange (dist + dr.jd)) :=
      le_max_left _ _
    have hhi : max p.minRange (min p.maxRange (dist + dr.jd)) ≤ p.maxRange :=
      max_le h1 (min_le_left _ _)
    have key : (origin.1 + max p.minRange (min p.maxRange (dist + dr.jd)) * dr.c
          - origin.1) ^ 2 +
        (origin.2.1 + max p.minRange (min p.maxRange (dist + dr.jd)) * dr.s
          - origin.2.1) ^ 2 =
        (max p.minRange (min p.maxRange (dist + dr.jd))) ^ 2 := by
      have expand : (origin.1 + max p.minRange (min p.maxRange (dist + dr.jd)) * dr.c
            - origin.1) ^ 2 +
          (origin.2.1 + max p.minRange (min p.maxRange (dist + dr.jd)) * dr.s
            - origin.2.1) ^ 2 =
          (max p.minRange (min p.maxRange (dist + dr.jd))) ^ 2 *
            (dr.c ^ 2 + dr.s ^ 2) := by ring
      rw [expand, hu, mul_one]
    constructor
    · rw [key]
      exact pow_le_pow_left₀ h0 hlo 2
    · rw [key]
      exact pow_le_pow_left₀ (le_trans h0 hlo) hhi 2

/-- Every sample of a ring comes from one sample_point computation. -/
theorem ring_samples_mem (p : HeatmapParams) (origin : ℚ × ℚ × ℚ) (dist : ℚ)
    (draws : ℕ → Draw) :
    ∀ n start l, ring_samples p origin dist draws start n = some l →
      ∀ sc ∈ l, ∃ k, sample_point p origin dist (draws k) = some sc := by
  intro n
  induction n with
  | zero =>
    intro start l hl sc hmem
    simp only [ring_samples] at hl
    injection hl with hl
    subst hl
    cases hmem
  | succ n ih =>
    intro start l hl sc hmem
    simp only [ring_samples] at hl
    split at hl
    next sc0 rest heq1 heq2 =>
      injection hl with hl
      subst hl
      rcases List.mem_cons.mp hmem with rfl | hmem2
      · exact ⟨start, heq1⟩
      · exact ih (start + 1) _ heq2 sc hmem2
    next => cases hl

/-- Every sample of the ring loop comes from one sample_point computation at
some ring distance. -/
theorem rings_samples_mem (p : HeatmapParams) (origin : ℚ × ℚ × ℚ)
    (draws : ℕ → Draw) (ppr : ℕ) :
    ∀ L : List ℕ, ∀ start l, rings_samples p origin draws ppr L start = some l →
      ∀ sc ∈ l, ∃ i k, sample_point p origin (ring_dist p i) (draws k) = some sc := by
  intro L
  induction L with
  | nil =>
    intro start l hl sc hmem
    simp only [rings_samples] at hl
    injection hl with hl
    subst hl
    cases hmem
  | cons i rest ih =>
    intro start l hl sc hmem
    simp only [rings_samples] at hl
    split at hl
    next s1 s2 heq1 heq2 =>
      injection hl with hl
      subst hl
      rcases List.mem_append.mp hmem with hmem1 | hmem2
      · obtain ⟨k, hk⟩ := ring_samples_mem p origin (ring_dist p i) draws
          ppr start _ heq1 sc hmem1
        exact ⟨i, k, hk⟩
      · exact ih (start + ppr) _ heq2 sc hmem2
    next => cases hl

/-- Every sample of a pass comes from one sample_point computation for one of
the scanned towers. -/
theorem towers_samples_mem (p : HeatmapParams) (draws : ℕ → Draw) :
    ∀ ts : List (ℚ × ℚ × ℚ), ∀ start l, towers_samples p draws ts start = some l →
      ∀ sc ∈ l, ∃ origin ∈ ts, ∃ i k,
        sample_point p origin (ring_dist p i) (draws k) = some sc := by
  intro ts
  induction ts with
  | nil =>
    intro start l hl sc hmem
    simp only [towers_samples] at hl
    injection hl with hl
    subst hl
    cases hmem
  | cons t rest ih =>
    intro start l hl sc hmem
    simp only [towers_samples, tower_samples] at hl
    split at hl
    next s1 s2 heq1 heq2 =>
      injection hl with hl
      subst hl
      rcases List.mem_append.mp hmem with hmem1 | hmem2
      · obtain ⟨i, k, hk⟩ := rings_samples_mem p t draws
          (p.pointsPerTower / numRings) (List.range numRings) start _ heq1 sc hmem1
        exact ⟨t, List.mem_cons_self t rest, i, k, hk⟩
      · obtain ⟨origin, ho, i, k, hk⟩ := ih _ _ heq2 sc hmem2
        exact ⟨origin, List.mem_cons_of_mem t ho, i, k, hk⟩
    next => cases hl

/-- Claim C8: with 0 <= minRange <= maxRange and unit direction draws, every
emitted sample lies at squared planar distance between minRange^2 and
maxRange^2 of its tower, for all jitter values, because the jittered distance
is clamped to [minRange, maxRange] before the position is computed. -/
theorem claim8_planar_distance_bound (p : HeatmapParams)
    (towers : List (ℚ × ℚ × ℚ)) (draws : ℕ → Draw) (h0 : 0 ≤ p.minRange)
    (h1 : p.minRange ≤ p.maxRange)
    (hu : ∀ k, (draws k).c ^ 2 + (draws k).s ^ 2 = 1)
    (l : List Sample) (hl : heatmap_samples p towers draws = some l)
    (sc : Sample) (hmem : sc ∈ l) :
    ∃ origin ∈ towers,
      p.minRange ^ 2 ≤ (sc.1.1 - origin.1) ^ 2 + (sc.1.2.1 - origin.2.1) ^ 2 ∧
      (sc.1.1 - origin.1) ^ 2 + (sc.1.2.1 - origin.2.1) ^ 2 ≤ p.maxRange ^ 2 := by
  obtain ⟨origin, ho, i, k, hk⟩ := towers_samples_mem p draws towers 0 l hl sc hmem
  exact ⟨origin, ho, sample_point_planar p origin (ring_dist p i) (draws k) sc
    h0 h1 (hu k) hk⟩

/-- The concrete pass used as claim C8's witness: one tower at the origin,
default ranges, all draws using the rational unit direction (3/5, 4/5) and
zero jitter. -/
def heat8 : Option (List Sample) :=
  heatmap_samples ⟨150, 5, 400, 4⟩ [(0, 0, 5)] (fun _ => ⟨3 / 5, 4 / 5, 0, 0⟩)

/-- The first sample emitted by the claim C8 witness pass. -/
def sc8 : Sample := (heat8.getD []).headI

/-- Claim C8 witness: the first sample of the concrete witness pass lies at
squared planar distance between 5^2 and 150^2 from its tower. -/
theorem claim8_witness :
    ∃ origin ∈ [((0 : ℚ), (0 : ℚ), (5 : ℚ))],
      (5 : ℚ) ^ 2 ≤ (sc8.1.1 - origin.1) ^ 2 + (sc8.1.2.1 - origin.2.1) ^ 2 ∧
      (sc8.1.1 - origin.1) ^ 2 + (sc8.1.2.1 - origin.2.1) ^ 2 ≤ (150 : ℚ) ^ 2 := by
  obtain ⟨l, hl, hlen⟩ := towers_samples_length ⟨150, 5, 400, 4⟩
    (fun _ => ⟨3 / 5, 4 / 5, 0, 0⟩) (by norm_num) [(0, 0, 5)] 0
  have hhs : heat8 = some l := hl
  have hne : l ≠ [] := by
    have hpos : 0 < l.length := by
      rw [hlen]
      simp [numRings]
    exact List.length_pos.mp hpos
  have hl2 : heat8 = some (heat8.getD []) := by rw [hhs]; rfl
  have hmem : sc8 ∈ heat8.getD [] := by
    simp only [sc8]
    rw [hhs]
    show l.headI ∈ l
    cases l with
    | nil => exact absurd rfl hne
    | cons a as => exact List.mem_cons_self a as
  exact claim8_planar_distance_bound ⟨150, 5, 400, 4⟩ [(0, 0, 5)]
    (fun _ => ⟨3 / 5, 4 / 5, 0, 0⟩) (by norm_num) (by norm_num)
    (fun k => by norm_num) (heat8.getD []) hl2 sc8 hmem

/-- The three color-band predicates of the statistics stage partition ℚ, so
their counts always add up to the list length. -/
theorem countP_signal_bands (sigs : List ℚ) :
    sigs.countP (fun s => decide (s < 33)) +
      sigs.countP (fun s => decide (33 ≤ s ∧ s < 66)) +
      sigs.countP (fun s => decide (66 ≤ s)) = sigs.length := by
  induction sigs with
  | nil => rfl
  | cons a l ih =>
    simp only [List.countP_cons, List.length_cons]
    by_cases h1 : a < 33
    · have h2 : ¬(33 ≤ a ∧ a < 66) := fun hc => absurd h1 (not_lt.mpr hc.1)
      have h3 : ¬(66 ≤ a) := by linarith
      simp [h1, h2, h3] at ih ⊢
      omega
    · by_cases h2 : a < 66
      · have hy : 33 ≤ a ∧ a < 66 := ⟨not_lt.mp h1, h2⟩
        have h3 : ¬(66 ≤ a) := by linarith
        simp [h1, hy, h3] at ih ⊢
        omega
      · have h3 : 66 ≤ a := not_lt.mp h2
        have hy : ¬(33 ≤ a ∧ a < 66) := fun hc => absurd hc.2 h2
        simp [h1, hy, h3] at ih ⊢
        omega

/-- The statistics stage faults (min of an empty sequence) exactly on an empty
color list. -/
theorem stats_of_eq_none_iff (final_colors : List (ℚ × ℚ × ℚ)) :
    stats_of final_colors = none ↔ final_colors = [] := by
  cases final_colors with
  | nil => simp [stats_of]
  | cons c cs => simp [stats_of]

/-- Whenever the statistics stage completes, its three bucket counts add up to
the number of colors it was given. -/
theorem stats_of_sum (final_colors : List (ℚ × ℚ × ℚ)) (st : Stats)
    (h : stats_of final_colors = some st) :
    st.red_count + st.yellow_count + st.green_count = final_colors.length := by
  simp only [stats_of] at h
  cases hm : final_colors.map recover_signal with
  | nil => rw [hm] at h; cases h
  | cons s0 rest =>
    rw [hm] at h
    injection h with h
    subst h
    have hpart := countP_signal_bands (s0 :: rest)
    have hlen : (s0 :: rest).length = final_colors.length := by
      rw [← hm, List.length_map]
    exact hlen ▸ hpart

/-- Unfolding of a completed tower-present pass. -/
theorem generate_heatmap_eq_of (p : HeatmapParams) (towers : List (ℚ × ℚ × ℚ))
    (draws : ℕ → Draw) (l : List Sample) (st : Stats) (ht : towers ≠ [])
    (hl : heatmap_samples p towers draws = some l)
    (hst : stats_of (l.map Prod.snd) = some st) :
    generate_heatmap p towers draws =
      some ⟨Visibility.inherited, l.map Prod.fst, l.map Prod.snd,
        some (List.replicate (l.map Prod.fst).length p.pointSize), some st⟩ := by
  unfold generate_heatmap
  rw [if_neg ht, hl]
  simp [hst]

/-- Claim C9: for every pass that generates a point set and completes its
statistics (some tower, non-degenerate range, pointsPerTower at least one full
ring), the weak/medium/strong bucket counts sum exactly to the emitted point
count. -/
theorem claim9_bucket_counts_sum (p : HeatmapParams)
    (towers : List (ℚ × ℚ × ℚ)) (draws : ℕ → Draw) (ht : towers ≠ [])
    (h : p.maxRange ≠ p.minRange) (hp : 20 ≤ p.pointsPerTower) :
    ∃ res st, generate_heatmap p towers draws = some res ∧
      res.stats = some st ∧
      st.red_count + st.yellow_count + st.green_count = res.points.length := by
  obtain ⟨l, hl, hlen⟩ := towers_samples_length p draws h towers 0
  have hhs : heatmap_samples p towers draws = some l := hl
  have hT : 0 < towers.length := List.length_pos.mpr ht
  have hppr : 0 < numRings * (p.pointsPerTower / numRings) := by
    simp only [numRings]
    omega
  have hlpos : 0 < l.length := by
    rw [hlen]
    exact Nat.mul_pos hT hppr
  have hcne : l.map Prod.snd ≠ [] := by
    intro hc
    have hl0 : l = [] := by
      cases l with
      | nil => rfl
      | cons a as => simp at hc
    rw [hl0] at hlpos
    simp at hlpos
  cases hst : stats_of (l.map Prod.snd) with
  | none => exact absurd ((stats_of_eq_none_iff _).mp hst) hcne
  | some st =>
    refine ⟨_, st, generate_heatmap_eq_of p towers draws l st ht hhs hst, rfl, ?_⟩
    have := stats_of_sum (l.map Prod.snd) st hst
    simpa using this

/-- Claim C9 witness: one tower at the origin with the default configuration
(400 points per tower, ranges 5 to 150). -/
theorem claim9_witness :
    ∃ res st, generate_heatmap ⟨150, 5, 400, 4⟩ [(0, 0, 5)]
        (fun _ => ⟨1, 0, 0, 0⟩) = some res ∧
      res.stats = some st ∧
      st.red_count + st.yellow_count + st.green_count = res.points.length :=
  claim9_bucket_counts_sum ⟨150, 5, 400, 4⟩ [(0, 0, 5)] (fun _ => ⟨1, 0, 0, 0⟩)
    (by simp) (by norm_num) (by norm_num)

/-- Claim C10: with at least one tower and a non-degenerate range, the emitted
point list is non-empty exactly when pointsPerTower is at least 20 (the fixed
ring count); the pass completes (statistics included) exactly under the same
condition, so under the control surface's precondition pointsPerTower >= 100
the unguarded empty reductions are unreachable, while pointsPerTower < 20
makes the statistics stage fault. -/
theorem claim10_stats_empty_guard (p : HeatmapParams)
    (towers : List (ℚ × ℚ × ℚ)) (draws : ℕ → Draw) (ht : towers ≠ [])
    (h : p.maxRange ≠ p.minRange) :
    (∃ l, heatmap_samples p towers draws = some l ∧
      (l ≠ [] ↔ 20 ≤ p.pointsPerTower)) ∧
    ((generate_heatmap p towers draws).isSome ↔ 20 ≤ p.pointsPerTower) ∧
    (100 ≤ p.pointsPerTower → (generate_heatmap p towers draws).isSome) := by
  obtain ⟨l, hl, hlen⟩ := towers_samples_length p draws h towers 0
  have hhs : heatmap_samples p towers draws = some l := hl
  have hT : 0 < towers.length := List.length_pos.mpr ht
  have hiff : l ≠ [] ↔ 20 ≤ p.pointsPerTower := by
    constructor
    · intro hne
      have hpos : 0 < l.length := List.length_pos.mpr hne
      rw [hlen] at hpos
      rcases Nat.eq_zero_or_pos (numRings * (p.pointsPerTower / numRings)) with
        h0 | hpos2
      · rw [h0, Nat.mul_zero] at hpos
        exact absurd hpos (lt_irrefl 0)
      · simp only [numRings] at hpos2
        omega
    · intro h20
      have hppr : 0 < numRings * (p.pointsPerTower / numRings) := by
        simp only [numRings]
        omega
      have : 0 < l.length := by
        rw [hlen]
        exact Nat.mul_pos hT hppr
      exact List.length_pos.mp this
  have hmain : (generate_heatmap p towers draws).isSome ↔ l ≠ [] := by
    unfold generate_heatmap
    rw [if_neg ht, hhs]
    cases hst : stats_of (l.map Prod.snd) with
    | none =>
      have hc0 : l.map Prod.snd = [] := (stats_of_eq_none_iff _).mp hst
      have hl0 : l = [] := by
        cases l with
        | nil => rfl
        | cons a as => simp at hc0
      simp [hl0, stats_of]
    | some st =>
      have hcne : l.map Prod.snd ≠ [] := by
        intro hc
        rw [(stats_of_eq_none_iff _).mpr hc] at hst
        cases hst
      have hlne : l ≠ [] := by
        intro hc
        subst hc
        simp at hcne
      simp [hst, hlne]
  exact ⟨⟨l, hhs, hiff⟩, hmain.trans hiff,
    fun h100 => (hmain.trans hiff).mpr (by omega)⟩

/-- Claim C10 witness: one tower at the origin with the default configuration,
where pointsPerTower = 400 satisfies the control surface's precondition. -/
theorem claim10_witness :
    (∃ l, heatmap_samples ⟨150, 5, 400, 4⟩ [(0, 0, 5)]
        (fun _ => ⟨1, 0, 0, 0⟩) = some l ∧ (l ≠ [] ↔ 20 ≤ 400)) ∧
    ((generate_heatmap ⟨150, 5, 400, 4⟩ [(0, 0, 5)]
        (fun _ => ⟨1, 0, 0, 0⟩)).isSome ↔ 20 ≤ 400) ∧
    (100 ≤ 400 → (generate_heatmap ⟨150, 5, 400, 4⟩ [(0, 0, 5)]
        (fun _ => ⟨1, 0, 0, 0⟩)).isSome) :=
  claim10_stats_empty_guard ⟨150, 5, 400, 4⟩ [(0, 0, 5)] (fun _ => ⟨1, 0, 0, 0⟩)
    (by simp) (by norm_num)
